import Mathlib

/-!
Verification development for the `inkling` story runtime.

The definitions below are a shallow embedding of the node graph and the
follow engine from `src/node/node.rs`, together with the variable printing
code from `src/line/variable.rs`.  Parts of the crate that are referenced by
this code but whose sources are not available (the line rendering module, the
Story wrapper, the error enum definition and the FollowData record) are
modelled from the specification; each such definition carries a doc comment
starting with `Modelled from the spec:`.

Machine integers (`usize`, `u32`, `i32`) are modelled as `Nat`/`Int`; none of
the embedded operations can overflow in the scenarios the theorems quantify
over, and Rust index/length arithmetic that would panic is modelled by the
explicit `panicked` outcome.
-/

namespace Inkling

/-- Modelled from the spec: the rendered form of a line that is pushed into
the output buffer (`LineData` in `src/follow`, not under src/).  A line
carries its emitted text, its tags and an optional trailing divert target.
The rendering machinery (alternatives, embedded expressions) lives in the
missing line module, so a line is modelled by its rendered content. -/
structure LineData where
  text : String
  tags : List String
  divert : Option String
deriving Repr, DecidableEq

/-- Modelled from the spec: a validated address `knot.stitch`.  A bare knot
address resolves to the default stitch whose identifier is the empty
string. -/
structure Address where
  knot : String
  stitch : String
deriving Repr, DecidableEq

/-- Variables in a story, from `src/line/variable.rs`. -/
inductive Variable where
  | address : Address → Variable
  | bool : Bool → Variable
  | divert : Address → Variable
  | float : Float → Variable
  | int : Int → Variable
  | string : String → Variable
deriving Repr

/-- Modelled from the spec: per-story mutable state consulted by conditions
and expressions (`FollowData` in `src/follow`, not under src/): visit counts
per knot and stitch, and the variable table. -/
structure FollowData where
  knot_visit_counts : List (String × List (String × Nat))
  variable_table : List (String × Variable)

/-- Association list lookup by string key, used by the FollowData model. -/
def lookupStr (key : String) : List (String × α) → Option α
  | [] => none
  | (k, v) :: rest => if k = key then some v else lookupStr key rest

/-- Choice data attached to a branch (`ChoiceData` in `src/line/choice.rs`,
not under src/).  Modelled from the spec: the selection text shown in the
menu, the line added to the output when the choice is taken, and the number
of times the branch has been visited. -/
structure ChoiceData where
  displayed : LineData
  line : LineData
  num_visited : Nat
deriving Repr, DecidableEq

/-- Modelled from the spec: the externally visible error type
(`InklingError` in `src/error/error.rs`, not under src/).  `invalidChoice`
mirrors the `InvalidChoice` stub constructed in `node.rs` (its `choice` and
`presented_choices` fields are filled in by later error handling and are
omitted here).  `badIndices` mirrors `InternalError::bad_indices`.
`emptyStack` is the internal error produced when `follow` is called with an
empty position stack.  `panicked` marks a Rust panic path
(`unimplemented`, out-of-bounds indexing, failed `expect`). -/
inductive InklingError where
  | invalidChoice (index : Nat) (internal_choices : List ChoiceData)
  | printInvalidVariable (name : String) (value : Variable)
  | badAddress (address : Address)
  | badIndices (stack_index : Nat) (item_index : Nat) (num_items : Nat) (stack : List Nat)
  | emptyStack
  | panicked

/-- Modelled from the spec: internal invariant violations form a distinct
internal-error family, as opposed to user errors such as a bad choice
index or printing a divert. -/
def InklingError.is_internal : InklingError → Bool
  | .invalidChoice _ _ => false
  | .printInvalidVariable _ _ => false
  | .badAddress _ => true
  | .badIndices _ _ _ _ => true
  | .emptyStack => true
  | .panicked => true

/-- Modelled from the spec: look up the visit count of a validated address
in the follow data (`get_num_visited` in `src/knot`, not under src/).  A
missing knot or stitch is an internal error since addresses are validated
before use. -/
def get_num_visited (address : Address) (data : FollowData) : Except InklingError Nat :=
  match lookupStr address.knot data.knot_visit_counts with
  | none => .error (.badAddress address)
  | some stitches =>
    match lookupStr address.stitch stitches with
    | none => .error (.badAddress address)
    | some n => .ok n

/-- String representation of a variable, from `Variable::to_string` in
`src/line/variable.rs`.  Addresses print their visit count, booleans print
as `1`/`0` (the Rust code formats `value as u8`), numbers and strings print
directly, and diverts raise `PrintInvalidVariable`. -/
def Variable.to_string (v : Variable) (data : FollowData) : Except InklingError String :=
  match v with
  | .address addr =>
    match get_num_visited addr data with
    | .error e => .error e
    | .ok num_visited => .ok (toString num_visited)
  | .bool value => .ok (if value then "1" else "0")
  | .divert _ => .error (.printInvalidVariable "" v)
  | .float value => .ok (toString value)
  | .int value => .ok (toString value)
  | .string content => .ok content

/-- Position stack: sequence of indices into the nested node graph
(`Stack` in `src/node`). -/
abbrev Stack := List Nat

/-- Output buffer of rendered lines (`LineDataBuffer` in `src/follow`). -/
abbrev LineDataBuffer := List LineData

/-- Result of following a node, from `src/follow`: the walk finished,
diverted to an address, or stopped at a set of choices. -/
inductive Next where
  | done
  | divert : String → Next
  | choiceSet : List ChoiceData → Next
deriving Repr, DecidableEq

mutual

/-- Item of a node, from `node.rs`: a line or a branching choice point. -/
inductive Container where
  | line : LineData → Container
  | branchingChoice : List Branch → Container

/-- Branch of a branching choice point, from `node.rs`: its choice data,
its child items and its visit count. -/
inductive Branch where
  | mk : ChoiceData → List Container → Nat → Branch

end

def Branch.choice : Branch → ChoiceData
  | .mk c _ _ => c

def Branch.items : Branch → List Container
  | .mk _ i _ => i

def Branch.num_visited : Branch → Nat
  | .mk _ _ n => n

/-- From `get_choices_from_branching_set` in `node.rs`: one `ChoiceData`
per branch, in branch order, with the `num_visited` field replaced by the
branch visit count. -/
def get_choices_from_branching_set (branches : List Branch) : List ChoiceData :=
  branches.map (fun branch => { branch.choice with num_visited := branch.num_visited })

/-- Node data operated on by the follow engine.  `RootNode` in `node.rs`
has exactly these fields; the trait default methods of `Follow` read only
`items` and `num_visited`, which `RootNode` and `Branch` implement
identically, so both followable node kinds are embedded through this common
carrier. -/
structure RootNode where
  items : List Container
  num_visited : Nat

/-- Follow-relevant data of a branch (the `Follow` trait view of a
`Branch`). -/
def Branch.data (b : Branch) : RootNode :=
  { items := b.items, num_visited := b.num_visited }

/-- Write follow-relevant data back into a branch, keeping its choice.
This models the in-place mutation through the `&mut Branch` returned by
`get_next_level_branch` and `get_selected_branch`. -/
def Branch.withData (b : Branch) (d : RootNode) : Branch :=
  .mk b.choice d.items d.num_visited

/-- Write an updated branch back into the node, modelling the in-place
mutation of `self.items` through a mutable borrow. -/
def setBranch (node : RootNode) (item_index branch_index : Nat) (branch : Branch) : RootNode :=
  match node.items.get? item_index with
  | some (.branchingChoice branches) =>
    { node with
        items := node.items.set item_index (.branchingChoice (branches.set branch_index branch)) }
  | _ => node

/-- Modelled from the spec: processing a line (`Line::process` in the line
module, not under src/) appends the rendered line to the output buffer and
reports a trailing divert if one is present. -/
def LineData.process (line : LineData) (buffer : LineDataBuffer) : Next × LineDataBuffer :=
  (match line.divert with
   | some address => .divert address
   | none => .done,
   buffer ++ [line])

/-- Result slot of a follow call: either a `Next` value or an error.  The
error also covers Rust panic paths so that the mutable state (node, stack,
buffer) is available on every path, matching `&mut` semantics. -/
inductive FResult where
  | ok : Next → FResult
  | err : InklingError → FResult

/-- Replace the last element of the stack, modelling mutation through
`stack.last_mut()`. -/
def setLast : Stack → Nat → Stack
  | [], _ => []
  | [_], value => [value]
  | entry :: next :: rest, value => entry :: setLast (next :: rest) value

/-- The item loop of `Follow::follow` in `node.rs`: iterate items from the
current index.  A line is processed (advancing the index by one, net of the
`+= 1` in the loop) and a trailing divert short-circuits; a branching
choice returns its choice set with the index left at the branching item
(the `+= 1` immediately undone by `-= 1`); an exhausted iteration returns
`Done`. -/
def followItems : List Container → Nat → LineDataBuffer → Next × Nat × LineDataBuffer
  | [], at_index, buffer => (.done, at_index, buffer)
  | item :: rest, at_index, buffer =>
    match item with
    | .line line =>
      let step := line.process buffer
      match step.1 with
      | .divert address => (.divert address, at_index + 1, step.2)
      | _ => followItems rest (at_index + 1) step.2
    | .branchingChoice branches =>
      (.choiceSet (get_choices_from_branching_set branches), at_index, buffer)

/-- Full result state of a follow call: the `Next` value or error, together
with the updated node, stack and buffer (the three `&mut` parameters of the
Rust methods). -/
structure FollowOut where
  result : FResult
  node : RootNode
  stack : Stack
  buffer : LineDataBuffer

/-- The visit increment at the head of `Follow::follow`: the node with its
visit count incremented when it is entered at item index zero. -/
def visitBumped (node : RootNode) (at_index : Nat) : RootNode :=
  if at_index = 0 then { node with num_visited := node.num_visited + 1 } else node

/-- From `Follow::follow` in `node.rs`.  An empty stack is an error; a last
index of 0 increments the visit count before any item is handled; the items
are then walked from the last index by `followItems` and the final index is
written back into the last stack slot.  A last index beyond the item count
makes the Rust slice `get_mut(at..).unwrap()` panic, modelled by
`panicked`. -/
def follow (node : RootNode) (stack : Stack) (buffer : LineDataBuffer) : FollowOut :=
  match stack.getLast? with
  | none => ⟨.err .emptyStack, node, stack, buffer⟩
  | some at_index =>
    let node := visitBumped node at_index
    if at_index ≤ node.items.length then
      let stepped := followItems (node.items.drop at_index) at_index buffer
      ⟨.ok stepped.1, node, setLast stack stepped.2.1, stepped.2.2⟩
    else
      ⟨.err .panicked, node, stack, buffer⟩

/-- The result handling at the end of `Follow::follow_with_choice` in
`node.rs`: errors propagate; on `Done` the two trailing stack entries are
popped, the item index at the new last slot is incremented past the
branching point, and `follow` continues on the current node; any other
result is propagated unchanged.  A stack too short for the pop is a Rust
panic (underflow in `stack.len() - 2` or the failed `expect`). -/
def resolveDone (node : RootNode) (result : FResult) (stack : Stack)
    (buffer : LineDataBuffer) : FollowOut :=
  match result with
  | .err e => ⟨.err e, node, stack, buffer⟩
  | .ok .done =>
    if stack.length < 2 then
      ⟨.err .panicked, node, stack, buffer⟩
    else
      let popped := stack.take (stack.length - 2)
      match popped.getLast? with
      | none => ⟨.err .panicked, node, popped, buffer⟩
      | some value => follow node (setLast popped (value + 1)) buffer
  | .ok other => ⟨.ok other, node, stack, buffer⟩

/-- From `get_next_level_branch` in `node.rs`: read the branching-point
item index and branch index from the stack and fetch that branch.  A
missing item or branch is `InternalError::bad_indices`; a stack index out
of bounds panics (`stack[i]`), and a line item hits `unimplemented`. -/
def get_next_level_branch (stack_index : Nat) (stack : Stack) (node : RootNode) :
    Except InklingError (Nat × Nat × Branch) :=
  match stack.get? stack_index, stack.get? (stack_index + 1) with
  | some branch_set_index, some branch_index =>
    match node.items.get? branch_set_index with
    | none => .error (.badIndices stack_index branch_set_index node.items.length stack)
    | some (.line _) => .error .panicked
    | some (.branchingChoice branches) =>
      match branches.get? branch_index with
      | none => .error (.badIndices (stack_index + 1) branch_index node.items.length stack)
      | some branch => .ok (branch_set_index, branch_index, branch)
  | _, _ => .error .panicked

/-- From `Follow::follow_with_choice` in `node.rs`.  With an empty stack
Rust computes `stack.len() - 1` with wraparound, takes the recursion path
and panics indexing the stack.  Below the leaf level
(`stack_index < stack.len() - 1`) it recurses into the branch named by the
stack at depth `stack_index + 2` and resolves the result.  At the leaf it
selects branch `chosen_branch_index` of the branching choice at
`stack[stack_index]`; a bad choice index yields the `InvalidChoice` stub
via `check_for_invalid_choice` with the stack untouched; on success the
stack is extended by `[chosen_branch_index, 0]` and the branch is
followed, after which the result is resolved. -/
def follow_with_choice (node : RootNode) (chosen_branch_index stack_index : Nat)
    (stack : Stack) (buffer : LineDataBuffer) : FollowOut :=
  if stack.length = 0 then
    ⟨.err .panicked, node, stack, buffer⟩
  else if h : stack_index + 1 < stack.length then
    match get_next_level_branch stack_index stack node with
    | .error e => ⟨.err e, node, stack, buffer⟩
    | .ok (branch_set_index, branch_index, branch) =>
      let inner := follow_with_choice branch.data chosen_branch_index (stack_index + 2) stack buffer
      resolveDone (setBranch node branch_set_index branch_index (branch.withData inner.node))
        inner.result inner.stack inner.buffer
  else
    match stack.get? stack_index with
    | none => ⟨.err .panicked, node, stack, buffer⟩
    | some branch_set_index =>
      match node.items.get? branch_set_index with
      | none =>
        ⟨.err (.badIndices stack_index branch_set_index node.items.length stack),
          node, stack, buffer⟩
      | some (.line _) => ⟨.err .panicked, node, stack, buffer⟩
      | some (.branchingChoice branches) =>
        match branches.get? chosen_branch_index with
        | none =>
          ⟨.err (.invalidChoice chosen_branch_index (get_choices_from_branching_set branches)),
            node, stack, buffer⟩
        | some branch =>
          let inner := follow branch.data (stack ++ [chosen_branch_index, 0]) buffer
          resolveDone (setBranch node branch_set_index chosen_branch_index
              (branch.withData inner.node))
            inner.result inner.stack inner.buffer
termination_by stack.length - stack_index
decreasing_by omega

/-- From `BranchBuilder::build` in `node.rs`: the built branch starts its
items with the selection-text line cloned from its choice, followed by the
added items, and a fresh visit count of zero. -/
def BranchBuilder.build (choice : ChoiceData) (added_items : List Container) : Branch :=
  .mk choice (Container.line choice.line :: added_items) 0

/-- Modelled from the spec: the Story state (the snapshot surface of §3):
the node graph keyed by knot name with its embedded visit counts, the
current location, the position stack, the follow data, the pending
last-presented choices and the progress flag.  The Story type itself is not
under src/. -/
structure Story where
  knots : List (String × RootNode)
  current_knot : String
  stack : Stack
  follow_data : FollowData
  last_choices : Option (List ChoiceData)
  in_progress : Bool

/-- Modelled from the spec: a snapshot losslessly captures the current
location, position stack, node graph with all per-node visit counts, the
variables, the pending presented-choice data and the progress flag. -/
structure Snapshot where
  knots : List (String × RootNode)
  current_knot : String
  stack : Stack
  follow_data : FollowData
  last_choices : Option (List ChoiceData)
  in_progress : Bool

/-- Modelled from the spec: taking a snapshot of a story captures every
field of the snapshot surface. -/
def snapshot (story : Story) : Snapshot :=
  ⟨story.knots, story.current_knot, story.stack, story.follow_data,
    story.last_choices, story.in_progress⟩

/-- Modelled from the spec: restoring rebuilds the story from the captured
fields. -/
def restore (snap : Snapshot) : Story :=
  ⟨snap.knots, snap.current_knot, snap.stack, snap.follow_data,
    snap.last_choices, snap.in_progress⟩

/-- Write an updated root node back into the knot table. -/
def setKnot (knots : List (String × RootNode)) (name : String) (node : RootNode) :
    List (String × RootNode) :=
  knots.map (fun kv => if kv.1 = name then (kv.1, node) else kv)

/-- Modelled from the spec: apply one host choice to the story by running
`follow_with_choice` on the current root node from the current position
stack, writing the mutated node and stack back into the story. -/
def make_choice_and_resume (story : Story) (choice : Nat) (buffer : LineDataBuffer) :
    Story × FResult × LineDataBuffer :=
  match lookupStr story.current_knot story.knots with
  | none => (story, .err (.badAddress ⟨story.current_knot, ""⟩), buffer)
  | some node =>
    let out := follow_with_choice node choice 0 story.stack buffer
    ({ story with
        knots := setKnot story.knots story.current_knot out.node,
        stack := out.stack },
      out.result, out.buffer)

/-- Modelled from the spec: run a sequence of host choices against the
story, accumulating the emitted lines. -/
def run_choices (story : Story) (choices : List Nat) (buffer : LineDataBuffer) :
    Story × LineDataBuffer :=
  match choices with
  | [] => (story, buffer)
  | c :: rest =>
    let step := make_choice_and_resume story c buffer
    run_choices step.1 rest step.2.2

/-- Sample line used by the concrete witnesses. -/
def sampleLine1 : LineData := ⟨"Line 1", [], none⟩

/-- Sample choice used by the concrete witnesses. -/
def sampleChoice1 : ChoiceData := ⟨⟨"Choice 1", [], none⟩, ⟨"Choice 1", [], none⟩, 0⟩

/-- Second sample choice used by the concrete witnesses. -/
def sampleChoice2 : ChoiceData := ⟨⟨"Choice 2", [], none⟩, ⟨"Choice 2", [], none⟩, 0⟩

/-- Sample branch used by the concrete witnesses. -/
def sampleBranch1 : Branch := BranchBuilder.build sampleChoice1 []

/-- Second sample branch used by the concrete witnesses. -/
def sampleBranch2 : Branch := BranchBuilder.build sampleChoice2 []

/-- Sample node used by the concrete witnesses: one line followed by a
branching choice with two branches. -/
def sampleNode : RootNode :=
  ⟨[.line sampleLine1, .branchingChoice [sampleBranch1, sampleBranch2]], 0⟩

/-- Sample follow data used by the concrete witnesses. -/
def sampleData : FollowData := ⟨[("a", [("b", 3)])], []⟩

theorem visitBumped_items (n : RootNode) (i : Nat) : (visitBumped n i).items = n.items := by
  by_cases h : i = 0 <;> simp [visitBumped, h]

theorem visitBumped_num (n : RootNode) (i : Nat) :
    (visitBumped n i).num_visited = n.num_visited + (if i = 0 then 1 else 0) := by
  by_cases h : i = 0 <;> simp [visitBumped, h]

theorem Branch.data_items (b : Branch) : b.data.items = b.items := rfl

theorem Branch.data_num_visited (b : Branch) : b.data.num_visited = b.num_visited := rfl

theorem setLast_length (s : Stack) (v : Nat) : (setLast s v).length = s.length := by
  induction s with
  | nil => rfl
  | cons x xs ih =>
    cases xs with
    | nil => rfl
    | cons y ys => simpa [setLast] using ih

theorem getLast?_cons_of_ne_nil (x : α) (l : List α) (h : l ≠ []) :
    (x :: l).getLast? = l.getLast? := by
  cases l with
  | nil => exact absurd rfl h
  | cons a as => exact List.getLast?_cons_cons ..

theorem setLast_ne_nil (s : Stack) (v : Nat) (h : s ≠ []) : setLast s v ≠ [] := by
  intro hc
  have := setLast_length s v
  rw [hc] at this
  exact h (List.length_eq_zero.mp this.symm)

theorem setLast_cons_of_ne_nil (x : Nat) (l : Stack) (v : Nat) (h : l ≠ []) :
    setLast (x :: l) v = x :: setLast l v := by
  cases l with
  | nil => exact absurd rfl h
  | cons a as => rfl

theorem getLast?_setLast (s : Stack) (v : Nat) (h : s ≠ []) :
    (setLast s v).getLast? = some v := by
  induction s with
  | nil => exact absurd rfl h
  | cons x xs ih =>
    cases xs with
    | nil => rfl
    | cons y ys =>
      rw [setLast_cons_of_ne_nil x (y :: ys) v (by simp),
        getLast?_cons_of_ne_nil x _ (setLast_ne_nil _ _ (by simp))]
      exact ih (by simp)

theorem setLast_self (s : Stack) (v : Nat) (h : s.getLast? = some v) : setLast s v = s := by
  induction s with
  | nil => simp at h
  | cons x xs ih =>
    cases xs with
    | nil =>
      simp [List.getLast?_singleton] at h
      simp [setLast, h]
    | cons y ys =>
      rw [List.getLast?_cons_cons] at h
      simp [setLast, ih h]

theorem setLast_setLast (s : Stack) (v w : Nat) : setLast (setLast s v) w = setLast s w := by
  induction s with
  | nil => rfl
  | cons x xs ih =>
    cases xs with
    | nil => rfl
    | cons y ys =>
      rw [setLast_cons_of_ne_nil x (y :: ys) v (by simp),
        setLast_cons_of_ne_nil x _ w (setLast_ne_nil _ _ (by simp)),
        setLast_cons_of_ne_nil x (y :: ys) w (by simp), ih]

theorem get?_imp_drop_cons (l : List α) (i : Nat) (c : α) (h : l.get? i = some c) :
    l.drop i = c :: l.drop (i + 1) := by
  have hi : i < l.length := by
    by_contra hn
    rw [List.get?_eq_getElem?, List.getElem?_eq_none (by omega)] at h
    exact Option.noConfusion h
  rw [List.drop_eq_getElem_cons hi]
  rw [List.get?_eq_getElem?, List.getElem?_eq_getElem hi] at h
  simp only [Option.some.injEq] at h
  rw [h]

/-- The item loop only appends to the buffer, and neither its result nor
its final index depends on the initial buffer content. -/
theorem followItems_shift (its : List Container) : ∀ (i : Nat) (buf1 buf2 : LineDataBuffer),
    followItems its i (buf1 ++ buf2) =
      ((followItems its i buf2).1, (followItems its i buf2).2.1,
        buf1 ++ (followItems its i buf2).2.2) := by
  induction its with
  | nil => intro i buf1 buf2; rfl
  | cons item rest ih =>
    intro i buf1 buf2
    cases item with
    | line l =>
      cases hd : l.divert with
      | some a => simp [followItems, LineData.process, hd]
      | none =>
        have h2 := ih (i + 1) buf1 (buf2 ++ [l])
        simp [followItems, LineData.process, hd, List.append_assoc] at h2 ⊢
        exact h2
    | branchingChoice bs => simp [followItems]

/-- Buffer monotonicity of the item loop. -/
theorem followItems_buffer_eq (its : List Container) (i : Nat) (buf : LineDataBuffer) :
    followItems its i buf =
      ((followItems its i []).1, (followItems its i []).2.1,
        buf ++ (followItems its i []).2.2) := by
  simpa using followItems_shift its i buf []

/-- A follow call updates the node exactly by the entry visit bump. -/
theorem follow_node_eq (n : RootNode) (s : Stack) (b : LineDataBuffer) (i : Nat)
    (h : s.getLast? = some i) : (follow n s b).node = visitBumped n i := by
  simp only [follow, h]
  split <;> rfl

/-- A follow call never changes the items of the node. -/
theorem follow_node_items (n : RootNode) (s : Stack) (b : LineDataBuffer) :
    (follow n s b).node.items = n.items := by
  cases h : s.getLast? with
  | none => simp [follow, h]
  | some i =>
    rw [follow_node_eq n s b i h]
    by_cases h0 : i = 0 <;> simp [visitBumped, h0]

/-- A follow call never changes the length of the position stack. -/
theorem follow_stack_length (n : RootNode) (s : Stack) (b : LineDataBuffer) :
    (follow n s b).stack.length = s.length := by
  cases h : s.getLast? with
  | none => simp [follow, h]
  | some i =>
    simp only [follow, h]
    split
    · exact setLast_length ..
    · rfl

/-- A follow call only appends to the output buffer. -/
theorem follow_buffer_mono (n : RootNode) (s : Stack) (b : LineDataBuffer) :
    ∃ d, (follow n s b).buffer = b ++ d := by
  cases h : s.getLast? with
  | none => exact ⟨[], by simp [follow, h]⟩
  | some i =>
    simp only [follow, h]
    split
    · exact ⟨_, by rw [followItems_buffer_eq]⟩
    · exact ⟨[], by simp⟩

/-- Result resolution never changes the items of the node. -/
theorem resolveDone_node_items (n : RootNode) (r : FResult) (s : Stack) (b : LineDataBuffer) :
    (resolveDone n r s b).node.items = n.items := by
  cases r with
  | err e => rfl
  | ok nx =>
    cases nx with
    | done =>
      simp only [resolveDone]
      split
      · rfl
      · cases hp : (s.take (s.length - 2)).getLast? with
        | none => rfl
        | some v => exact follow_node_items ..
    | divert a => rfl
    | choiceSet cs => rfl

/-- Result resolution only appends to the output buffer. -/
theorem resolveDone_buffer_mono (n : RootNode) (r : FResult) (s : Stack) (b : LineDataBuffer) :
    ∃ d, (resolveDone n r s b).buffer = b ++ d := by
  cases r with
  | err e => exact ⟨[], by simp [resolveDone]⟩
  | ok nx =>
    cases nx with
    | done =>
      simp only [resolveDone]
      split
      · exact ⟨[], by simp⟩
      · cases hp : (s.take (s.length - 2)).getLast? with
        | none => exact ⟨[], by simp⟩
        | some v => exact follow_buffer_mono ..
    | divert a => exact ⟨[], by simp [resolveDone]⟩
    | choiceSet cs => exact ⟨[], by simp [resolveDone]⟩

/-- Result resolution preserves the parity of the stack length: it either
leaves the stack alone or pops exactly two entries. -/
theorem resolveDone_parity (n : RootNode) (r : FResult) (s : Stack) (b : LineDataBuffer) :
    (resolveDone n r s b).stack.length % 2 = s.length % 2 := by
  cases r with
  | err e => rfl
  | ok nx =>
    cases nx with
    | done =>
      simp only [resolveDone]
      split
      · rfl
      case isFalse hlen =>
        cases hp : (s.take (s.length - 2)).getLast? with
        | none =>
          simp only [FollowOut.stack, List.length_take]
          omega
        | some v =>
          rw [follow_stack_length, setLast_length, List.length_take]
          omega
    | divert a => rfl
    | choiceSet cs => rfl

/-- Following with a choice preserves the parity of the stack length: the
only mutations of the stack length are the extension by two entries on
branch selection and the truncation by two entries on branch completion. -/
theorem follow_with_choice_parity (n : RootNode) (c si : Nat) (s : Stack) (b : LineDataBuffer) :
    (follow_with_choice n c si s b).stack.length % 2 = s.length % 2 := by
  induction n, c, si, s, b using follow_with_choice.induct with
  | case1 node c si s b h0 =>
    rw [follow_with_choice, if_pos h0]
  | case2 node c si s b h0 hlt e hget =>
    rw [follow_with_choice, if_neg h0, dif_pos hlt]
    simp only [hget]
  | case3 node c si s b h0 hlt bsi bri br hget ih =>
    rw [follow_with_choice, if_neg h0, dif_pos hlt]
    simp only [hget]
    rw [resolveDone_parity, ih]
  | case4 node c si s b h0 hlt hget =>
    rw [follow_with_choice, if_neg h0, dif_neg hlt]
    simp only [hget]
  | case5 node c si s b h0 hlt bsi hget hitem =>
    rw [follow_with_choice, if_neg h0, dif_neg hlt]
    simp only [hget, hitem]
  | case6 node c si s b h0 hlt bsi hget l hitem =>
    rw [follow_with_choice, if_neg h0, dif_neg hlt]
    simp only [hget, hitem]
  | case7 node c si s b h0 hlt bsi hget bs hitem hbr =>
    rw [follow_with_choice, if_neg h0, dif_neg hlt]
    simp only [hget, hitem, hbr]
  | case8 node c si s b h0 hlt bsi hget bs hitem br hbr =>
    rw [follow_with_choice, if_neg h0, dif_neg hlt]
    simp only [hget, hitem, hbr]
    rw [resolveDone_parity, follow_stack_length]
    simp only [List.length_append, List.length_cons, List.length_nil]
    omega

/-- Inversion for the item loop: a returned choice set comes from a
branching-choice item of the walked list, the final index points at that
item, and the choices are exactly those of its branch set. -/
theorem followItems_choiceSet (its : List Container) : ∀ (i : Nat) (buf : LineDataBuffer)
    (cs : List ChoiceData) (i2 : Nat) (buf2 : LineDataBuffer),
    followItems its i buf = (.choiceSet cs, i2, buf2) →
    ∃ k bs, its.get? k = some (.branchingChoice bs) ∧ i2 = i + k ∧
      cs = get_choices_from_branching_set bs := by
  induction its with
  | nil =>
    intro i buf cs i2 buf2 h
    simp [followItems] at h
  | cons item rest ih =>
    intro i buf cs i2 buf2 h
    cases item with
    | line l =>
      cases hd : l.divert with
      | some a => simp [followItems, LineData.process, hd] at h
      | none =>
        simp only [followItems, LineData.process, hd] at h
        obtain ⟨k, bs, h1, h2, h3⟩ := ih (i + 1) (buf ++ [l]) cs i2 buf2 h
        exact ⟨k + 1, bs, by simpa using h1, by omega, h3⟩
    | branchingChoice bs =>
      simp only [followItems, Prod.mk.injEq, Next.choiceSet.injEq] at h
      exact ⟨0, bs, rfl, by omega, h.1.symm⟩

theorem getLast?_append_pair (s : Stack) (a b : Nat) : (s ++ [a, b]).getLast? = some b := by
  rw [show s ++ [a, b] = (s ++ [a]) ++ [b] by simp, List.getLast?_concat]

theorem ne_nil_of_getLast?_eq_some (s : Stack) (i : Nat) (h : s.getLast? = some i) :
    s ≠ [] := by
  intro hc
  rw [hc] at h
  exact Option.noConfusion h

/-- C9: calling `follow` with an empty position stack returns an error of
the internal-error family, the node and the output buffer are untouched (no
line is emitted), and no panic occurs (the error is an ordinary return
value). -/
theorem c9_follow_empty_stack_internal_error (node : RootNode) (buffer : LineDataBuffer) :
    ∃ e, follow node [] buffer = ⟨.err e, node, [], buffer⟩ ∧ e.is_internal = true :=
  ⟨.emptyStack, rfl, rfl⟩

/-- C8: restoring a story from a snapshot preserves all choice-relevant
state: the restored story equals the original one field by field, its
follow data (hence every variable condition such as a guard on `torch`)
is the one captured at snapshot time, and running any sequence of
subsequent choices from the restored story presents the same choice sets
and emits the same output as continuing the original story. -/
theorem c8_snapshot_restore_round_trip (story : Story) (choices : List Nat)
    (buffer : LineDataBuffer) :
    restore (snapshot story) = story ∧
    (restore (snapshot story)).follow_data = story.follow_data ∧
    run_choices (restore (snapshot story)) choices buffer = run_choices story choices buffer :=
  ⟨rfl, rfl, rfl⟩

/-- C7: for every follow data, `Variable.to_string` fails with
`PrintInvalidVariable` on a divert variable; on an address variable whose
visit count resolves to `n` it returns the decimal rendering of `n`; and on
int, float, bool and string variables it succeeds. -/
theorem c7_variable_to_string_cases (data : FollowData) :
    (∀ a, Variable.to_string (.divert a) data =
      .error (.printInvalidVariable "" (.divert a))) ∧
    (∀ a n, get_num_visited a data = .ok n →
      Variable.to_string (.address a) data = .ok (toString n)) ∧
    (∀ i : Int, Variable.to_string (.int i) data = .ok (toString i)) ∧
    (∀ f : Float, Variable.to_string (.float f) data = .ok (toString f)) ∧
    (∀ b : Bool, Variable.to_string (.bool b) data = .ok (if b then "1" else "0")) ∧
    (∀ t : String, Variable.to_string (.string t) data = .ok t) := by
  refine ⟨fun a => rfl, fun a n h => ?_, fun i => rfl, fun f => rfl, fun b => rfl, fun t => rfl⟩
  simp only [Variable.to_string, h]

theorem c7_witness :
    Variable.to_string (.address ⟨"a", "b"⟩) sampleData = .ok (toString (3 : Nat)) :=
  (c7_variable_to_string_cases sampleData).2.1 ⟨"a", "b"⟩ 3 rfl

/-- C6: `follow` preserves the stack length exactly, and for every stack of
odd length `follow_with_choice` returns a stack of odd length on every
path, since the only length mutations are the extension by two entries on
branch selection and the truncation by two entries on branch completion. -/
theorem c6_stack_length_parity (node : RootNode) (stack : Stack) (buffer : LineDataBuffer)
    (chosen stack_index : Nat) (hodd : Odd stack.length) :
    (follow node stack buffer).stack.length = stack.length ∧
    Odd (follow_with_choice node chosen stack_index stack buffer).stack.length := by
  refine ⟨follow_stack_length .., ?_⟩
  have hp := follow_with_choice_parity node chosen stack_index stack buffer
  rw [Nat.odd_iff] at hodd ⊢
  omega

theorem c6_witness :
    (follow sampleNode [0] []).stack.length = ([0] : Stack).length ∧
    Odd (follow_with_choice sampleNode 0 0 [0] []).stack.length :=
  c6_stack_length_parity sampleNode [0] [] 0 0 (by decide)

/-- C4: at the leaf branching level, a chosen index that is not a valid
index into the branch list of the branching choice at the current stack
position yields an `InvalidChoice` error carrying the bad index and the
available choices, with the stack (and node and buffer) left unchanged: the
stack is not extended with the choice entries. -/
theorem c4_invalid_choice_error (node : RootNode) (stack : Stack) (buffer : LineDataBuffer)
    (chosen stack_index branch_set_index : Nat) (bs : List Branch)
    (hne : ¬ stack.length = 0) (hleaf : ¬ stack_index + 1 < stack.length)
    (hget : stack.get? stack_index = some branch_set_index)
    (hitem : node.items.get? branch_set_index = some (.branchingChoice bs))
    (hbad : bs.length ≤ chosen) :
    follow_with_choice node chosen stack_index stack buffer =
      ⟨.err (.invalidChoice chosen (get_choices_from_branching_set bs)), node, stack, buffer⟩ := by
  rw [follow_with_choice, if_neg hne, dif_neg hleaf]
  have hb : bs.get? chosen = none := by
    rw [List.get?_eq_getElem?, List.getElem?_eq_none hbad]
  simp only [hget, hitem, hb]

theorem c4_witness :
    follow_with_choice sampleNode 7 0 [1] [] =
      ⟨.err (.invalidChoice 7 (get_choices_from_branching_set [sampleBranch1, sampleBranch2])),
        sampleNode, [1], []⟩ :=
  c4_invalid_choice_error sampleNode [1] [] 7 0 1 [sampleBranch1, sampleBranch2]
    (by decide) (by decide) rfl rfl (by decide)

/-- C10: when `follow` reaches a branching choice, the returned choice set
has one entry per branch of that branching choice, in branch order, with no
branch excluded at the node level, and each entry equals the choice data of
that branch with the `num_visited` field set to the visit count of the
branch at the moment of return. -/
theorem c10_choice_set_unfiltered (node : RootNode) (stack : Stack) (buffer : LineDataBuffer)
    (i : Nat) (bs : List Branch) (hlast : stack.getLast? = some i)
    (hitem : node.items.get? i = some (.branchingChoice bs)) :
    (follow node stack buffer).result =
      .ok (.choiceSet (bs.map (fun b => { b.choice with num_visited := b.num_visited }))) ∧
    (bs.map (fun b => { b.choice with num_visited := b.num_visited })).length = bs.length ∧
    (∀ k, (bs.map (fun b => { b.choice with num_visited := b.num_visited })).get? k =
      (bs.get? k).map (fun b => { b.choice with num_visited := b.num_visited })) := by
  have hdrop : node.items.drop i = .branchingChoice bs :: node.items.drop (i + 1) :=
    get?_imp_drop_cons _ _ _ hitem
  have hlt : i < node.items.length := by
    by_contra hn
    rw [List.get?_eq_getElem?, List.getElem?_eq_none (by omega)] at hitem
    exact Option.noConfusion hitem
  refine ⟨?_, by simp, fun k => by simp [List.get?_map]⟩
  simp only [follow, hlast, visitBumped_items, if_pos (Nat.le_of_lt hlt), hdrop, followItems]
  rfl

theorem c10_witness :
    (follow sampleNode [1] []).result =
      .ok (.choiceSet ([sampleBranch1, sampleBranch2].map
        (fun b => { b.choice with num_visited := b.num_visited }))) ∧
    ([sampleBranch1, sampleBranch2].map
      (fun b => { b.choice with num_visited := b.num_visited })).length =
      ([sampleBranch1, sampleBranch2] : List Branch).length ∧
    (∀ k, (([sampleBranch1, sampleBranch2] : List Branch).map
      (fun b => { b.choice with num_visited := b.num_visited })).get? k =
      (([sampleBranch1, sampleBranch2] : List Branch).get? k).map
        (fun b => { b.choice with num_visited := b.num_visited })) :=
  c10_choice_set_unfiltered sampleNode [1] [] 1 [sampleBranch1, sampleBranch2] rfl rfl

/-- C5: whenever `follow` returns a `ChoiceSet`, the last element of the
returned position stack is exactly the item index of the branching choice
that produced it, the choices are the choice set of that item, the stack
keeps its length, and the items of the node are untouched: the stack is left frozen at
the branching point item. -/
theorem c5_choice_set_freezes_stack (node : RootNode) (stack : Stack)
    (buffer : LineDataBuffer) (cs : List ChoiceData)
    (h : (follow node stack buffer).result = .ok (.choiceSet cs)) :
    ∃ j bs, (follow node stack buffer).stack.getLast? = some j ∧
      node.items.get? j = some (.branchingChoice bs) ∧
      cs = get_choices_from_branching_set bs ∧
      (follow node stack buffer).stack.length = stack.length ∧
      (follow node stack buffer).node.items = node.items := by
  cases hlast : stack.getLast? with
  | none => simp [follow, hlast] at h
  | some i =>
    have hne := ne_nil_of_getLast?_eq_some stack i hlast
    simp only [follow, hlast, visitBumped_items] at h ⊢
    by_cases hle : i ≤ node.items.length
    · simp only [if_pos hle] at h ⊢
      have h1 : (followItems (node.items.drop i) i buffer).1 = .choiceSet cs := by
        injection h
      have heq : followItems (node.items.drop i) i buffer =
          (.choiceSet cs,
            (followItems (node.items.drop i) i buffer).2.1,
            (followItems (node.items.drop i) i buffer).2.2) := by
        rw [← h1]
      obtain ⟨k, bs, hk, hidx, hcs⟩ :=
        followItems_choiceSet (node.items.drop i) i buffer cs _ _ heq
      refine ⟨i + k, bs, ?_, ?_, hcs, setLast_length .., visitBumped_items ..⟩
      · rw [← hidx]
        exact getLast?_setLast stack _ hne
      · rw [← List.get?_drop]
        exact hk
    · simp [if_neg hle] at h

theorem c5_witness :
    ∃ j bs, (follow sampleNode [1] []).stack.getLast? = some j ∧
      sampleNode.items.get? j = some (.branchingChoice bs) ∧
      get_choices_from_branching_set [sampleBranch1, sampleBranch2] =
        get_choices_from_branching_set bs ∧
      (follow sampleNode [1] []).stack.length = ([1] : Stack).length ∧
      (follow sampleNode [1] []).node.items = sampleNode.items :=
  c5_choice_set_freezes_stack sampleNode [1] []
    (get_choices_from_branching_set [sampleBranch1, sampleBranch2]) rfl

/-- C1: for every node and every non-empty position stack whose last
element is the next item index `i`, `follow` iterates the items from `i`
(after the entry visit bump): if the items are exhausted it returns `Done`
with the stack untouched; a line with a trailing divert is appended to the
buffer and `Divert` is returned immediately with the last index advanced by
one; a line without a divert is appended and the walk continues as a fresh
follow from the advanced index; a branching choice returns its `ChoiceSet`
with the last index left pointing at the branching item. -/
theorem c1_follow_iterates_items (node : RootNode) (stack : Stack)
    (buffer : LineDataBuffer) (i : Nat) (hlast : stack.getLast? = some i) :
    (node.items.length = i →
      follow node stack buffer = ⟨.ok .done, visitBumped node i, stack, buffer⟩) ∧
    (∀ l rest a, node.items.drop i = .line l :: rest → l.divert = some a →
      follow node stack buffer =
        ⟨.ok (.divert a), visitBumped node i, setLast stack (i + 1), buffer ++ [l]⟩) ∧
    (∀ l rest, node.items.drop i = .line l :: rest → l.divert = none →
      follow node stack buffer =
        follow (visitBumped node i) (setLast stack (i + 1)) (buffer ++ [l])) ∧
    (∀ bs rest, node.items.drop i = .branchingChoice bs :: rest →
      follow node stack buffer =
        ⟨.ok (.choiceSet (get_choices_from_branching_set bs)), visitBumped node i,
          stack, buffer⟩) := by
  have hne := ne_nil_of_getLast?_eq_some stack i hlast
  refine ⟨?_, ?_, ?_, ?_⟩
  · intro hlen
    have hle : i ≤ node.items.length := Nat.le_of_eq hlen.symm
    have hdrop : node.items.drop i = [] := List.drop_of_length_le (Nat.le_of_eq hlen)
    simp only [follow, hlast, visitBumped_items, if_pos hle, hdrop, followItems]
    rw [setLast_self stack i hlast]
  · intro l rest a hdrop hdiv
    have hlt : i < node.items.length := by
      by_contra hn
      rw [List.drop_eq_nil_of_le (by omega)] at hdrop
      exact List.noConfusion hdrop
    simp only [follow, hlast, visitBumped_items, if_pos (Nat.le_of_lt hlt), hdrop,
      followItems, LineData.process, hdiv]
  · intro l rest hdrop hdiv
    have hlt : i < node.items.length := by
      by_contra hn
      rw [List.drop_eq_nil_of_le (by omega)] at hdrop
      exact List.noConfusion hdrop
    have hle1 : i ≤ node.items.length := Nat.le_of_lt hlt
    have hle2 : i + 1 ≤ node.items.length := hlt
    have hrest : node.items.drop (i + 1) = rest := by
      rw [← List.tail_drop, hdrop, List.tail_cons]
    have hlast2 : (setLast stack (i + 1)).getLast? = some (i + 1) :=
      getLast?_setLast stack _ hne
    have hbump : visitBumped (visitBumped node i) (i + 1) = visitBumped node i := by
      simp [visitBumped]
    simp only [follow, hlast, hlast2, hbump, visitBumped_items, if_pos hle1, if_pos hle2,
      hdrop, hrest, followItems, LineData.process, hdiv, setLast_setLast]
  · intro bs rest hdrop
    have hlt : i < node.items.length := by
      by_contra hn
      rw [List.drop_eq_nil_of_le (by omega)] at hdrop
      exact List.noConfusion hdrop
    simp only [follow, hlast, visitBumped_items, if_pos (Nat.le_of_lt hlt), hdrop,
      followItems]
    rw [setLast_self stack i hlast]

theorem c1_witness :
    (follow sampleNode [0] [] =
      follow (visitBumped sampleNode 0) (setLast [0] 1) ([] ++ [sampleLine1])) ∧
    (follow sampleNode [1] [] =
      ⟨.ok (.choiceSet (get_choices_from_branching_set [sampleBranch1, sampleBranch2])),
        visitBumped sampleNode 1, [1], []⟩) ∧
    (follow ⟨[], 5⟩ [0] [] = ⟨.ok .done, visitBumped ⟨[], 5⟩ 0, [0], []⟩) :=
  ⟨(c1_follow_iterates_items sampleNode [0] [] 0 rfl).2.2.1 sampleLine1 _ rfl rfl,
   (c1_follow_iterates_items sampleNode [1] [] 1 rfl).2.2.2
     [sampleBranch1, sampleBranch2] _ rfl,
   (c1_follow_iterates_items ⟨[], 5⟩ [0] [] 0 rfl).1 rfl⟩

/-- C2: below the leaf level `follow_with_choice` recurses into the branch
named by the stack entries at `stack_index` and `stack_index + 1` at depth
`stack_index + 2`, writing the mutated branch back; at the leaf it selects
the chosen branch of the branching choice at `stack[stack_index]`, extends
the stack by `[chosen_branch_index, 0]` and follows that branch; and the
inner result is resolved so that `Done` pops the two trailing stack
entries, advances the item index at the new last slot past the branching
point and continues following the current node, while `Divert` and
`ChoiceSet` are propagated unchanged. -/
theorem c2_follow_with_choice_descends :
    (∀ (node : RootNode) (chosen stack_index : Nat) (stack : Stack)
      (buffer : LineDataBuffer) (branch_set_index branch_index : Nat) (branch : Branch),
      ¬ stack.length = 0 → stack_index + 1 < stack.length →
      get_next_level_branch stack_index stack node =
        .ok (branch_set_index, branch_index, branch) →
      follow_with_choice node chosen stack_index stack buffer =
        resolveDone
          (setBranch node branch_set_index branch_index
            (branch.withData
              (follow_with_choice branch.data chosen (stack_index + 2) stack buffer).node))
          (follow_with_choice branch.data chosen (stack_index + 2) stack buffer).result
          (follow_with_choice branch.data chosen (stack_index + 2) stack buffer).stack
          (follow_with_choice branch.data chosen (stack_index + 2) stack buffer).buffer) ∧
    (∀ (node : RootNode) (chosen stack_index : Nat) (stack : Stack)
      (buffer : LineDataBuffer) (branch_set_index : Nat) (bs : List Branch) (branch : Branch),
      ¬ stack.length = 0 → ¬ stack_index + 1 < stack.length →
      stack.get? stack_index = some branch_set_index →
      node.items.get? branch_set_index = some (.branchingChoice bs) →
      bs.get? chosen = some branch →
      follow_with_choice node chosen stack_index stack buffer =
        resolveDone
          (setBranch node branch_set_index chosen
            (branch.withData (follow branch.data (stack ++ [chosen, 0]) buffer).node))
          (follow branch.data (stack ++ [chosen, 0]) buffer).result
          (follow branch.data (stack ++ [chosen, 0]) buffer).stack
          (follow branch.data (stack ++ [chosen, 0]) buffer).buffer) ∧
    (∀ (node : RootNode) (stack : Stack) (buffer : LineDataBuffer) (v : Nat),
      2 ≤ stack.length →
      (stack.take (stack.length - 2)).getLast? = some v →
      resolveDone node (.ok .done) stack buffer =
        follow node (setLast (stack.take (stack.length - 2)) (v + 1)) buffer) ∧
    (∀ (node : RootNode) (stack : Stack) (buffer : LineDataBuffer) (a : String),
      resolveDone node (.ok (.divert a)) stack buffer = ⟨.ok (.divert a), node, stack, buffer⟩) ∧
    (∀ (node : RootNode) (stack : Stack) (buffer : LineDataBuffer) (cs : List ChoiceData),
      resolveDone node (.ok (.choiceSet cs)) stack buffer =
        ⟨.ok (.choiceSet cs), node, stack, buffer⟩) := by
  refine ⟨?_, ?_, ?_, fun node stack buffer a => rfl, fun node stack buffer cs => rfl⟩
  · intro node chosen stack_index stack buffer bsi bri branch hne hlt hget
    rw [follow_with_choice, if_neg hne, dif_pos hlt]
    simp only [hget]
  · intro node chosen stack_index stack buffer bsi bs branch hne hleaf hget hitem hbr
    rw [follow_with_choice, if_neg hne, dif_neg hleaf]
    simp only [hget, hitem, hbr]
  · intro node stack buffer v hlen hlast
    simp only [resolveDone, if_neg (by omega : ¬ stack.length < 2), hlast]

theorem c2_witness :
    follow_with_choice sampleNode 0 0 [1] [] =
      resolveDone
        (setBranch sampleNode 1 0
          (sampleBranch1.withData
            (follow sampleBranch1.data ([1] ++ [0, 0]) []).node))
        (follow sampleBranch1.data ([1] ++ [0, 0]) []).result
        (follow sampleBranch1.data ([1] ++ [0, 0]) []).stack
        (follow sampleBranch1.data ([1] ++ [0, 0]) []).buffer :=
  c2_follow_with_choice_descends.2.1 sampleNode 0 0 [1] [] 1
    [sampleBranch1, sampleBranch2] sampleBranch1 (by decide) (by decide) rfl rfl rfl

/-- C3: the visit count of a node is incremented by `follow` exactly when the
node is entered with the last stack index equal to zero (the increment is
applied before the items are walked, so it is present in the node state
paired with every possible buffer outcome); and each leaf branch selection
through `follow_with_choice` increments the visit count of the selected
branch exactly once, leaving every other branch and item untouched, with the
selection-text line of the branch itself (its first item, as built by
`BranchBuilder::build`) as the first line appended to the buffer. -/
theorem c3_visit_count_increment :
    (∀ (node : RootNode) (stack : Stack) (buffer : LineDataBuffer) (i : Nat),
      stack.getLast? = some i →
      (follow node stack buffer).node.num_visited =
        node.num_visited + (if i = 0 then 1 else 0)) ∧
    (∀ (node : RootNode) (stack : Stack) (buffer : LineDataBuffer)
      (chosen stack_index branch_set_index : Nat) (bs : List Branch) (branch : Branch)
      (l : LineData) (rest_items : List Container),
      ¬ stack.length = 0 → ¬ stack_index + 1 < stack.length →
      stack.get? stack_index = some branch_set_index →
      node.items.get? branch_set_index = some (.branchingChoice bs) →
      bs.get? chosen = some branch →
      branch.items = Container.line l :: rest_items →
      (follow_with_choice node chosen stack_index stack buffer).node.items =
        node.items.set branch_set_index
          (.branchingChoice (bs.set chosen
            (.mk branch.choice branch.items (branch.num_visited + 1)))) ∧
      ∃ d, (follow_with_choice node chosen stack_index stack buffer).buffer =
        buffer ++ (l :: d)) := by
  constructor
  · intro node stack buffer i hlast
    rw [follow_node_eq node stack buffer i hlast, visitBumped_num]
  · intro node stack buffer chosen stack_index bsi bs branch l rest_items
      hne hleaf hget hitem hbr hfirst
    rw [follow_with_choice, if_neg hne, dif_neg hleaf]
    simp only [hget, hitem, hbr]
    have hlast0 : (stack ++ [chosen, 0]).getLast? = some 0 := getLast?_append_pair ..
    have hinner : (follow branch.data (stack ++ [chosen, 0]) buffer).node =
        visitBumped branch.data 0 :=
      follow_node_eq _ _ _ _ hlast0
    have hnode : branch.withData (follow branch.data (stack ++ [chosen, 0]) buffer).node =
        .mk branch.choice branch.items (branch.num_visited + 1) := by
      rw [hinner]
      rfl
    constructor
    · rw [resolveDone_node_items, hnode, setBranch, hitem]
    · obtain ⟨d2, hd2⟩ := resolveDone_buffer_mono
        (setBranch node bsi chosen
          (branch.withData (follow branch.data (stack ++ [chosen, 0]) buffer).node))
        (follow branch.data (stack ++ [chosen, 0]) buffer).result
        (follow branch.data (stack ++ [chosen, 0]) buffer).stack
        (follow branch.data (stack ++ [chosen, 0]) buffer).buffer
      have hd1 : ∃ d1, (follow branch.data (stack ++ [chosen, 0]) buffer).buffer =
          buffer ++ (l :: d1) := by
        simp only [follow, hlast0, visitBumped_items, Branch.data_items, hfirst,
          List.drop_zero, Nat.zero_le, if_true]
        cases hdiv : l.divert with
        | some a =>
          exact ⟨[], by simp [followItems, LineData.process, hdiv]⟩
        | none =>
          simp only [followItems, LineData.process, hdiv]
          refine ⟨(followItems rest_items 1 []).2.2, ?_⟩
          rw [followItems_buffer_eq]
          simp
      obtain ⟨d1, hd1⟩ := hd1
      refine ⟨d1 ++ d2, ?_⟩
      rw [hd2, hd1, List.append_assoc]
      simp

theorem c3_witness :
    ((follow sampleNode [0] []).node.num_visited =
      sampleNode.num_visited + (if (0 : Nat) = 0 then 1 else 0)) ∧
    ((follow_with_choice sampleNode 0 0 [1] []).node.items =
      sampleNode.items.set 1 (.branchingChoice ([sampleBranch1, sampleBranch2].set 0
        (.mk sampleBranch1.choice sampleBranch1.items (sampleBranch1.num_visited + 1)))) ∧
     ∃ d, (follow_with_choice sampleNode 0 0 [1] []).buffer =
      [] ++ (sampleChoice1.line :: d)) :=
  ⟨c3_visit_count_increment.1 sampleNode [0] [] 0 rfl,
   c3_visit_count_increment.2 sampleNode [1] [] 0 0 1 [sampleBranch1, sampleBranch2]
     sampleBranch1 sampleChoice1.line [] (by decide) (by decide) rfl rfl rfl rfl⟩

end Inkling
